import Mathlib

/-!
Shallow embedding of `googleapiwrapper/gmail_api.py` (google-api-wrapper).

Conventions of the embedding:
* Raw API records (Python dicts) become structures whose fields are `Option`-valued:
  `none` models a missing dictionary key, matching `GH.get_field(obj, FIELD)`
  returning `None`; `GH.get_field(obj, FIELD, default)` becomes `Option.getD`.
* Python code that raises an unhandled exception is modelled by functions
  returning `Option`/`none`.
* Python truthiness tests (`if self.limit:`, `if not message_id:`) are modelled
  exactly: `None` and `0` and `""` are falsy.
* The network services (`threads().list`, `threads().get`, the dedup oracle of
  `ApiFetchingContext`, `attachments().get`) are external collaborators; they
  enter as explicit inputs: the finite list of list-responses (pages) and the
  functions collected in `SessionEnv`.
-/

namespace GmailApi

/-! ## Raw API records (inputs of the parser and orchestrator) -/

/-- Raw header record: one element of the `headers` list of a message part. -/
structure RawHeader where
  name : Option String
  value : Option String
deriving Repr, DecidableEq

/-- Raw `body` record of a message part: `data`, `size`, `attachmentId` keys. -/
structure RawBody where
  data : Option String
  size : Option Int
  attachmentId : Option String
deriving Repr, DecidableEq

/-- Raw message-part record: `partId`, `mimeType`, `headers`, `body`, `parts`.
The `parts` key holds the recursively nested child part records. -/
inductive RawMessagePart where
  | mk (partId : Option String) (mimeType : Option String)
       (headers : Option (List RawHeader))
       (body : Option RawBody)
       (parts : Option (List RawMessagePart))
deriving Repr

/-- Raw message record: `id`, `threadId`, `internalDate`, `snippet`, `payload`.
`internalDate` is the string holding Unix epoch milliseconds; we model the
successfully `int()`-parsed value (a missing key makes `int(None)` raise,
modelled as `none`). -/
structure RawMessage where
  id : Option String
  threadId : Option String
  internalDate : Option Int
  snippet : Option String
  payload : Option RawMessagePart

/-- Raw thread summary as it appears in a `threads.list` response page. -/
structure RawThreadSummary where
  id : Option String

/-- Raw thread detail as returned by `threads.get`: the `messages` list. -/
structure RawThread where
  id : Option String
  messages : Option (List RawMessage)

/-- One non-falsy `threads.list` response: its `threads` list
(`response.get(ThreadsResponseField.THREADS.value, [])`, so a missing key is
the same as an empty list). -/
structure Page where
  threads : List RawThreadSummary

/-! ## Domain model (gmail_domain records as constructed by gmail_api.py) -/

/-- Header domain object: `Header(name, value)`. -/
structure Header where
  name : Option String
  value : Option String
deriving Repr, DecidableEq

/-- MessagePartBody domain object: `MessagePartBody(data, size, attachmentId)`. -/
structure MessagePartBody where
  data : Option String
  size : Option Int
  attachmentId : Option String
deriving Repr, DecidableEq

/-- MessagePart domain object: part id, MIME type, ordered headers, one body,
ordered children. -/
inductive MessagePart where
  | mk (partId : Option String) (mimeType : Option String)
       (headers : List Header) (body : MessagePartBody)
       (parts : List MessagePart)
deriving Repr

def MessagePart.partId : MessagePart → Option String
  | .mk a _ _ _ _ => a

def MessagePart.mimeType : MessagePart → Option String
  | .mk _ a _ _ _ => a

def MessagePart.headers : MessagePart → List Header
  | .mk _ _ a _ _ => a

def MessagePart.body : MessagePart → MessagePartBody
  | .mk _ _ _ a _ => a

def MessagePart.parts : MessagePart → List MessagePart
  | .mk _ _ _ _ a => a

/-- Message domain object: `Message(id, threadId, date, snippet, payload)`.
The `date` field holds `datetime.fromtimestamp(int(internalDate) / 1000)`;
we model the timestamp as the exact rational number of Unix epoch seconds. -/
structure Message where
  id : Option String
  threadId : Option String
  date : Rat
  snippet : Option String
  payload : MessagePart

/-- Modelled from the spec: `GmailMessageBodyPart` lives in gmail_domain.py,
which is not under src/. Per the spec it wraps the body data of one part
together with its MIME type; only its role as the third component of a
`MessagePartDescriptor` matters here. -/
structure GmailMessageBodyPart where
  body_data : Option String
  mime_type : Option String

/-- MessagePartDescriptor: the transient triple (owning message, owning part,
raw body record) built by `report_decode_error` / `report_empty_body` from the
"current" registration pointers of the conversion context. The registration
calls live in gmail_domain.py (not under src/); descriptors reaching the
buffers always carry the message and part being parsed. -/
structure MessagePartDescriptor where
  message : Message
  message_part : MessagePart
  gmail_msg_body_part : GmailMessageBodyPart

/-- Thread domain object: `Thread(id, subject, messages)`. -/
structure Thread where
  id : Option String
  subject : Option String
  messages : List Message

/-! ## Progress (gmail_api.py lines 18-49) -/

/-- Progress counters. `limit` is the optional processing limit (`None` when
not given). `item_type` only feeds log strings and is omitted. -/
structure Progress where
  requests_count : Nat
  all_items_count : Nat
  processed_items : Nat
  new_items_with_last_request : Int
  limit : Option Nat

/-- Constructor defaults of `Progress.__init__`. -/
def Progress.init (limit : Option Nat) : Progress :=
  ⟨0, 0, 0, -1, limit⟩

def Progress.incr_requests (p : Progress) : Progress :=
  { p with requests_count := p.requests_count + 1 }

/-- Updates of `register_new_items` (the `print_status` branch only logs). -/
def Progress.register_new_items (p : Progress) (number_of_new_items : Nat) : Progress :=
  { p with all_items_count := p.all_items_count + number_of_new_items,
           new_items_with_last_request := (number_of_new_items : Int) }

def Progress.incr_processed_items (p : Progress) : Progress :=
  { p with processed_items := p.processed_items + 1 }

/-- Python truthiness of the optional numeric limit: `if self.limit:` is false
both for `None` and for `0`. -/
def natTruthy : Option Nat → Bool
  | none => false
  | some n => n != 0

/-- Faithful `is_limit_reached`: `if self.limit: return self.processed_items >
self.limit` and `return False` otherwise, with Python truthiness on `limit`. -/
def Progress.is_limit_reached (p : Progress) : Bool :=
  match p.limit with
  | some l => if l != 0 then decide (p.processed_items > l) else false
  | none => false

/-! ## ApiConversionContext (gmail_api.py lines 52-87) -/

/-- Session-scoped conversion context: the progress tracker plus the two
anomaly buffers. The "current message/part" registration pointers are only
read when descriptors are built (in gmail_domain.py, outside src/), so they
do not appear as separate state here: descriptors carry their message/part. -/
structure ApiConversionContext where
  progress : Progress
  decode_errors : List MessagePartDescriptor
  empty_bodies : List MessagePartDescriptor

def ApiConversionContext.init (limit : Option Nat) : ApiConversionContext :=
  ⟨Progress.init limit, [], []⟩

/-- Loop body of `handle_empty_bodies`: `for descriptor in self.empty_bodies:
func(descriptor)`, collecting the calls in order. -/
def drainEmptyBodiesLoop (func : MessagePartDescriptor → α) :
    List MessagePartDescriptor → List α
  | [] => []
  | d :: ds => func d :: drainEmptyBodiesLoop func ds

/-- Faithful `handle_empty_bodies(func)`: invoke `func` once per buffered
descriptor in order, then clear the buffer. Returns the calls and the new
context. -/
def ApiConversionContext.handle_empty_bodies (ctx : ApiConversionContext)
    (func : MessagePartDescriptor → α) : List α × ApiConversionContext :=
  (drainEmptyBodiesLoop func ctx.empty_bodies, { ctx with empty_bodies := [] })

/-- Faithful `handle_encoding_errors`: clears the decode-error buffer. -/
def ApiConversionContext.handle_encoding_errors (ctx : ApiConversionContext) :
    ApiConversionContext :=
  { ctx with decode_errors := [] }

/-! ## Parser (gmail_api.py lines 185-221) -/

/-- Faithful `_parse_headers`: `GH.get_field(message_part, HEADERS)` has no
default, so a part without a `headers` key makes the `for` loop iterate over
`None` and raise (`none` here); otherwise each record yields
`Header(get_field(NAME), get_field(VALUE))` in order. -/
def parse_headers (message_part : RawMessagePart) : Option (List Header) :=
  match message_part with
  | .mk _ _ hdrs _ _ =>
    hdrs.map (fun headers_list => headers_list.map (fun h => ⟨h.name, h.value⟩))

/-- Faithful `_parse_message_part_body_obj`: applied to
`GH.get_field(message_part, BODY)`; a missing `body` key passes `None` whose
field accesses raise (`none` here), otherwise the three keys are copied. -/
def parse_message_part_body_obj : Option RawBody → Option MessagePartBody
  | none => none
  | some b => some ⟨b.data, b.size, b.attachmentId⟩

mutual

/-- Faithful `parse_message_part(message_part, message_id)`:
`message_parts = GH.get_field(message_part, PARTS, [])` (default empty list),
headers and body are extracted as above, and the children are parsed
recursively in order; `message_id` is threaded through unused, as in the
source. -/
def parse_message_part (message_part : RawMessagePart) (message_id : Option String) :
    Option MessagePart :=
  match message_part with
  | .mk pid mt hdrs body none =>
    (parse_headers (.mk pid mt hdrs body none)).bind (fun headers =>
      (parse_message_part_body_obj body).map (fun b => .mk pid mt headers b []))
  | .mk pid mt hdrs body (some ps) =>
    (parse_headers (.mk pid mt hdrs body (some ps))).bind (fun headers =>
      (parse_message_part_body_obj body).bind (fun b =>
        (parse_message_part_list ps message_id).map (fun kids =>
          .mk pid mt headers b kids)))

/-- List comprehension `[self.parse_message_part(part, message_id) for part in
message_parts]`: left to right, the first exception aborts. -/
def parse_message_part_list (parts : List RawMessagePart) (message_id : Option String) :
    Option (List MessagePart) :=
  match parts with
  | [] => some []
  | p :: ps =>
    (parse_message_part p message_id).bind (fun a =>
      (parse_message_part_list ps message_id).map (fun rest => a :: rest))

end

/-- Faithful `parse_api_message(message)`: extract `payload` and `id`, parse
the part tree, then build
`Message(id, threadId, fromtimestamp(int(DATE) / 1000), snippet, part)`.
A missing payload makes `parse_message_part` raise on its first field access;
a missing date makes `int(None)` raise. `int(...) / 1000` is true division,
giving the epoch-seconds timestamp as an exact rational. -/
def parse_api_message (message : RawMessage) : Option Message :=
  match message.payload with
  | none => none
  | some message_part =>
    (parse_message_part message_part message.id).bind (fun message_part_obj =>
      message.internalDate.map (fun d =>
        ⟨message.id, message.threadId, (d : Rat) / 1000, message.snippet,
         message_part_obj⟩))

/-- List comprehension `[self.parse_api_message(message) for message in
messages_response]`. -/
def parse_api_message_list : List RawMessage → Option (List Message)
  | [] => some []
  | m :: ms =>
    (parse_api_message m).bind (fun a =>
      (parse_api_message_list ms).map (fun rest => a :: rest))

/-! ## Re-serialization, well-formedness and shape measures (for the
round-trip analysis of the parser) -/

mutual

/-- Re-serialize a parsed part back into a raw record, emitting every field
the parser reads. -/
def serialize_message_part : MessagePart → RawMessagePart
  | .mk pid mt headers b kids =>
    .mk pid mt (some (headers.map (fun h => ⟨h.name, h.value⟩)))
      (some ⟨b.data, b.size, b.attachmentId⟩)
      (some (serialize_message_part_list kids))

def serialize_message_part_list : List MessagePart → List RawMessagePart
  | [] => []
  | p :: ps => serialize_message_part p :: serialize_message_part_list ps

end

mutual

/-- Well-formed raw part record: the structural keys `headers`, `body` and
`parts` are all present (hereditarily). The leaf keys (`partId`, `mimeType`,
header names/values, body fields) may be absent: the parser copies them as
optional values verbatim. -/
def wf_message_part : RawMessagePart → Bool
  | .mk _ _ hdrs body none => false && (hdrs.isSome && body.isSome)
  | .mk _ _ hdrs body (some ps) =>
    hdrs.isSome && (body.isSome && wf_message_part_list ps)

def wf_message_part_list : List RawMessagePart → Bool
  | [] => true
  | p :: ps => wf_message_part p && wf_message_part_list ps

end

mutual

/-- Depth of a raw part tree (a leaf part has depth 1). -/
def raw_depth_part : RawMessagePart → Nat
  | .mk _ _ _ _ none => 1
  | .mk _ _ _ _ (some ps) => 1 + raw_depth_list ps

def raw_depth_list : List RawMessagePart → Nat
  | [] => 0
  | p :: ps => max (raw_depth_part p) (raw_depth_list ps)

end

mutual

/-- Depth of a parsed part tree. -/
def depth_message_part : MessagePart → Nat
  | .mk _ _ _ _ kids => 1 + depth_message_part_list kids

def depth_message_part_list : List MessagePart → Nat
  | [] => 0
  | p :: ps => max (depth_message_part p) (depth_message_part_list ps)

end

/-! ## Empty bodies and decode errors -/

/-- Empty raw body in the sense of the spec: neither inline data nor an
attachment reference id. -/
def rawBodyIsEmpty (b : RawBody) : Bool :=
  b.data.isNone && b.attachmentId.isNone

/-- Empty parsed body: neither inline data nor an attachment reference id. -/
def bodyIsEmpty (b : MessagePartBody) : Bool :=
  b.data.isNone && b.attachmentId.isNone

mutual

/-- Number of raw part records in the tree whose (present) body carries
neither inline data nor an attachment id. -/
def raw_empty_body_count : RawMessagePart → Nat
  | .mk _ _ _ body none =>
    (if (body.map rawBodyIsEmpty).getD false then 1 else 0)
  | .mk _ _ _ body (some ps) =>
    (if (body.map rawBodyIsEmpty).getD false then 1 else 0) +
      raw_empty_body_count_list ps

def raw_empty_body_count_list : List RawMessagePart → Nat
  | [] => 0
  | p :: ps => raw_empty_body_count p + raw_empty_body_count_list ps

end

mutual

/-- Modelled from the spec: the conversion performed inside gmail_domain.py
(not under src/) walks the parsed parts of a message and reports, via
`report_empty_body` of the conversion context, one descriptor for every part
whose body has neither inline data nor an attachment reference; descriptors
are recorded in traversal order against the current message and part. -/
def collect_empty_bodies_part (msg : Message) : MessagePart → List MessagePartDescriptor
  | .mk pid mt headers b kids =>
    (if bodyIsEmpty b then
      [⟨msg, .mk pid mt headers b kids, ⟨b.data, mt⟩⟩]
     else []) ++ collect_empty_bodies_list msg kids

def collect_empty_bodies_list (msg : Message) :
    List MessagePart → List MessagePartDescriptor
  | [] => []
  | p :: ps => collect_empty_bodies_part msg p ++ collect_empty_bodies_list msg ps

end

/-- Modelled from the spec: empty-body descriptors reported while one parsed
message is converted. -/
def collect_empty_bodies (msg : Message) : List MessagePartDescriptor :=
  collect_empty_bodies_part msg msg.payload

mutual

/-- Modelled from the spec: gmail_domain.py (not under src/) decodes the
inline base64 data of each part and reports, via `report_decode_error`, one
descriptor for every part whose inline data cannot be decoded. Decodability
of a data string is abstracted as the predicate `dec`, since the decoder is
not part of src/. -/
def collect_decode_errors_part (dec : String → Bool) (msg : Message) :
    MessagePart → List MessagePartDescriptor
  | .mk pid mt headers b kids =>
    (match b.data with
     | some d =>
       if dec d then [] else [⟨msg, .mk pid mt headers b kids, ⟨b.data, mt⟩⟩]
     | none => []) ++ collect_decode_errors_list dec msg kids

def collect_decode_errors_list (dec : String → Bool) (msg : Message) :
    List MessagePart → List MessagePartDescriptor
  | [] => []
  | p :: ps =>
    collect_decode_errors_part dec msg p ++ collect_decode_errors_list dec msg ps

end

/-- Modelled from the spec: decode-error descriptors reported while one
parsed message is converted. -/
def collect_decode_errors (dec : String → Bool) (msg : Message) :
    List MessagePartDescriptor :=
  collect_decode_errors_part dec msg msg.payload

/-! ## Deferred attachment fetch (gmail_api.py lines 170-183) -/

/-- Python truthiness of an optional string: missing (`None`) and empty are
both falsy. -/
def strTruthy : Option String → Bool
  | none => false
  | some s => !s.isEmpty

/-- Observable outcome of `_query_attachment_of_descriptor`: either the guard
fires (error logged, fetch skipped, normal return) or `_query_attachment` is
called with the two identifiers. -/
inductive AttachmentFetch where
  | skippedWithError
  | fetched (message_id : String) (attachment_id : String)
deriving Repr, DecidableEq

/-- Faithful `_query_attachment_of_descriptor(descriptor)`:
`message_id = descriptor.message.id`,
`attachment_id = descriptor.message_part.body.attachmentId`;
`if not message_id or not attachment_id:` log an error and return, else call
`_query_attachment(message_id, attachment_id)`. Total: no exception escapes. -/
def query_attachment_of_descriptor (descriptor : MessagePartDescriptor) :
    AttachmentFetch :=
  let message_id := descriptor.message.id
  let attachment_id := descriptor.message_part.body.attachmentId
  if !strTruthy message_id || !strTruthy attachment_id then
    .skippedWithError
  else
    .fetched (message_id.getD "") (attachment_id.getD "")

/-! ## Thread assembly (gmail_api.py line 158) -/

/-- Modelled from the spec: `Message.subject` is defined in gmail_domain.py
(not under src/); per the spec the subject of a message is the value of its
`Subject` header, read here from the root part. -/
def Message.subject (m : Message) : Option String :=
  ((m.payload.headers.filter (fun h => h.name == some "Subject")).head?).bind
    (fun h => h.value)

/-- Faithful `Thread(thread_id, messages[0].subject, messages)`: the
unconditional `messages[0]` raises `IndexError` on an empty list (`none`
here); otherwise the subject is taken from the first message. -/
def mk_thread_obj (thread_id : Option String) (messages : List Message) :
    Option Thread :=
  messages[0]?.map (fun m0 => ⟨thread_id, m0.subject, messages⟩)

/-! ## Thread fetch orchestrator (gmail_api.py lines 117-168) -/

/-- External collaborators of one fetch session:
* `oracle` is `api_fetching_ctx.get_thread_ids_to_query_from_api` (the
  `expect_one_message_per_thread` flag is internal to its heuristic);
* `getThread` is `threads_svc.get(...).execute()` keyed by thread id;
* `decodable` abstracts base64 decodability of inline body data (the decoder
  lives in gmail_domain.py, outside src/, and is modelled from the spec). -/
structure SessionEnv where
  oracle : List (Option String) → List (Option String)
  getThread : Option String → RawThread
  decodable : String → Bool

/-- Modelled from the spec: while the messages of one thread are parsed, the
conversion in gmail_domain.py reports the decode-error and empty-body
descriptors of each message into the session context, in message order. -/
def convert_and_report (dec : String → Bool) (ctx : ApiConversionContext)
    (messages : List Message) : ApiConversionContext :=
  { ctx with
    empty_bodies := ctx.empty_bodies ++ messages.flatMap collect_empty_bodies,
    decode_errors := ctx.decode_errors ++ messages.flatMap (collect_decode_errors dec) }

/-- Detail fetch, parse, drain and assembly for one thread id that passed the
limit check (gmail_api.py lines 154-163):
`thread_response = self._query_thread_data(thread_id)`;
`messages_response = GH.get_field(thread_response, MESSAGES)` (iterating a
missing list raises); parse every message; drain the empty-body buffer through
`_query_attachment_of_descriptor`; `Thread(thread_id, messages[0].subject,
messages)`; `_sanity_check` is a `pass` stub and `process_thread` only updates
the external oracle cache. Returns the thread, the updated context and the
attachment-fetch calls made while draining. -/
def process_thread_step (env : SessionEnv) (thread_id : Option String)
    (ctx : ApiConversionContext) :
    Option (Thread × ApiConversionContext × List AttachmentFetch) :=
  match (env.getThread thread_id).messages with
  | none => none
  | some messages_response =>
    match parse_api_message_list messages_response with
    | none => none
    | some messages =>
      let ctx1 := convert_and_report env.decodable ctx messages
      let drained := ctx1.handle_empty_bodies query_attachment_of_descriptor
      match mk_thread_obj thread_id messages with
      | none => none
      | some thread_obj => some (thread_obj, drained.2, drained.1)

/-- Mutable state threaded through the session loop: the output collection
(`threads = GmailThreads()`, `threads.add(...)` appends), the conversion
context, the thread ids whose detail fetch ran, and the attachment fetches
performed. -/
structure LoopState where
  threads : List Thread
  ctx : ApiConversionContext
  processed_ids : List (Option String)
  fetches : List AttachmentFetch

/-- Faithful inner loop `for idx, thread_id in enumerate(thread_ids_to_query)`
(gmail_api.py lines 147-163): increment the processed counter, then check the
limit and return the partial collection from inside the loop when it fires
(`true` marks that early return), otherwise run the detail step and continue.
`none` models an unhandled exception. -/
def process_thread_ids (env : SessionEnv) :
    List (Option String) → LoopState → Option (Bool × LoopState)
  | [], st => some (false, st)
  | thread_id :: rest, st =>
    let ctx1 := { st.ctx with progress := st.ctx.progress.incr_processed_items }
    if ctx1.progress.is_limit_reached then
      some (true, { st with ctx := ctx1 })
    else
      match process_thread_step env thread_id ctx1 with
      | none => none
      | some (thread_obj, ctx2, fs) =>
        process_thread_ids env rest
          { threads := st.threads ++ [thread_obj]
            ctx := ctx2
            processed_ids := st.processed_ids ++ [thread_id]
            fetches := st.fetches ++ fs }

/-- Faithful outer loop `while request is not None` (gmail_api.py lines
132-164) over the finite sequence of list responses; `none` entries are falsy
responses, whose whole `if response:` body is skipped while paging continues.
For a real page: `incr_requests`, `register_new_items(len(...))`, extract the
summary ids, filter them through the oracle, then run the inner loop; an early
limit return propagates out of both loops. Paging terminates exactly when
`list_next` yields no further request, i.e. when the page list is exhausted. -/
def process_pages (env : SessionEnv) :
    List (Option Page) → LoopState → Option (Bool × LoopState)
  | [], st => some (false, st)
  | none :: rest, st => process_pages env rest st
  | some page :: rest, st =>
    let prog1 := st.ctx.progress.incr_requests
    let list_of_threads := page.threads
    let prog2 := prog1.register_new_items list_of_threads.length
    let thread_ids := list_of_threads.map RawThreadSummary.id
    let thread_ids_to_query := env.oracle thread_ids
    match process_thread_ids env thread_ids_to_query
        { st with ctx := { st.ctx with progress := prog2 } } with
    | none => none
    | some (true, st1) => some (true, st1)
    | some (false, st1) => process_pages env rest st1

/-- Result of one `query_threads_with_paging` session: an early limit return
from inside the loop, a normal return after the final
`ctx.handle_encoding_errors()`, or an unhandled exception. -/
inductive SessionOutcome where
  | limitStop (threads : List Thread) (ctx : ApiConversionContext)
      (processed_ids : List (Option String)) (fetches : List AttachmentFetch)
  | finished (threads : List Thread) (ctx : ApiConversionContext)
      (processed_ids : List (Option String)) (fetches : List AttachmentFetch)
  | failure

/-- Faithful `query_threads_with_paging(query, limit, ...)`: a fresh
conversion context with the given limit, the paging loop, and on normal
termination the finalize step `ctx.handle_encoding_errors()`. The `query`
string and the `maxResults` cap only shape the list requests, i.e. the pages
supplied by the service, which are an input here. -/
def query_threads_with_paging (env : SessionEnv) (pages : List (Option Page))
    (limit : Option Nat) : SessionOutcome :=
  let ctx := ApiConversionContext.init limit
  match process_pages env pages ⟨[], ctx, [], []⟩ with
  | none => .failure
  | some (true, st) => .limitStop st.threads st.ctx st.processed_ids st.fetches
  | some (false, st) =>
    .finished st.threads st.ctx.handle_encoding_errors st.processed_ids st.fetches

/-! ## Observables of a session outcome -/

def SessionOutcome.isLimitStop : SessionOutcome → Bool
  | .limitStop _ _ _ _ => true
  | _ => false

def SessionOutcome.isFinished : SessionOutcome → Bool
  | .finished _ _ _ _ => true
  | _ => false

def SessionOutcome.threadCount : SessionOutcome → Nat
  | .limitStop ts _ _ _ => ts.length
  | .finished ts _ _ _ => ts.length
  | .failure => 0

def SessionOutcome.processedIds : SessionOutcome → List (Option String)
  | .limitStop _ _ pids _ => pids
  | .finished _ _ pids _ => pids
  | .failure => []

def SessionOutcome.processedItems : SessionOutcome → Nat
  | .limitStop _ c _ _ => c.progress.processed_items
  | .finished _ c _ _ => c.progress.processed_items
  | .failure => 0

def SessionOutcome.decodeErrors : SessionOutcome → List MessagePartDescriptor
  | .limitStop _ c _ _ => c.decode_errors
  | .finished _ c _ _ => c.decode_errors
  | .failure => []

/-! ## Derived per-thread functions (independent of the loop state) -/

/-- Thread object produced for one id by the detail step, when no exception
occurs: fetch, parse every message, assemble. -/
def thread_of (env : SessionEnv) (thread_id : Option String) : Option Thread :=
  ((env.getThread thread_id).messages.bind parse_api_message_list).bind
    (mk_thread_obj thread_id)

/-- Decidable success of the detail step for one id. -/
def stepOk (env : SessionEnv) (thread_id : Option String) : Bool :=
  (thread_of env thread_id).isSome

/-- Decode-error descriptors contributed by one processed thread id. -/
def decode_errors_of (env : SessionEnv) (thread_id : Option String) :
    List MessagePartDescriptor :=
  match (env.getThread thread_id).messages with
  | none => []
  | some ms =>
    match parse_api_message_list ms with
    | none => []
    | some messages => messages.flatMap (collect_decode_errors env.decodable)

/-- Candidate ids carried by a sequence of pages, falsy responses excluded. -/
def pages_thread_ids : List (Option Page) → List (Option String)
  | [] => []
  | none :: rest => pages_thread_ids rest
  | some page :: rest =>
    page.threads.map RawThreadSummary.id ++ pages_thread_ids rest

/-! ## Auxiliary counts and well-formedness on whole messages -/

mutual

/-- Number of parsed parts in a tree whose body is empty. -/
def empty_body_count_part : MessagePart → Nat
  | .mk _ _ _ b kids =>
    (if bodyIsEmpty b then 1 else 0) + empty_body_count_list kids

def empty_body_count_list : List MessagePart → Nat
  | [] => 0
  | p :: ps => empty_body_count_part p + empty_body_count_list ps

end

/-- Well-formed raw message record: structurally well-formed payload present
and a parseable `internalDate`; exactly what `parse_api_message` needs in
order not to raise. -/
def wf_raw_message (m : RawMessage) : Bool :=
  (match m.payload with
   | some pp => wf_message_part pp
   | none => false) && m.internalDate.isSome

/-! ## Concrete sample data (used by the closed evaluation theorems) -/

/-- Sample raw part: inline data present, no attachment id, no children. -/
def sampleRawPart : RawMessagePart :=
  .mk (some "0") (some "text/plain")
    (some [⟨some "Subject", some "hello"⟩])
    (some ⟨some "ZGF0YQ", some 4, none⟩)
    (some [])

/-- Sample raw message carried by every thread detail of `sampleEnv`. -/
def sampleRawMessage : RawMessage :=
  ⟨some "m1", some "t1", some 1634930855000, some "snip", some sampleRawPart⟩

/-- Sample environment: the oracle accepts every candidate, every thread
detail holds one well-formed message, and all inline data decodes. -/
def sampleEnv : SessionEnv :=
  ⟨fun ids => ids, fun tid => ⟨tid, some [sampleRawMessage]⟩, fun _ => true⟩

/-- Sample environment whose inline data never decodes: every processed
message contributes decode-error descriptors. -/
def sampleEnvUndecodable : SessionEnv :=
  ⟨fun ids => ids, fun tid => ⟨tid, some [sampleRawMessage]⟩, fun _ => false⟩

/-- Sample environment whose thread details contain zero messages. -/
def sampleEnvNoMessages : SessionEnv :=
  ⟨fun ids => ids, fun tid => ⟨tid, some []⟩, fun _ => true⟩

/-- Thread summary with the given id. -/
def summary (s : String) : RawThreadSummary := ⟨some s⟩

/-- One list page carrying three thread summaries. -/
def samplePage3 : Page := ⟨[summary "t1", summary "t2", summary "t3"]⟩

/-- Raw part with neither inline data nor an attachment id: an empty-body
anomaly. -/
def sampleRawPartEmptyBody : RawMessagePart :=
  .mk (some "0") (some "text/plain")
    (some [⟨some "Subject", some "empty"⟩])
    (some ⟨none, some 0, none⟩)
    (some [])

/-- Raw message whose single part is `sampleRawPartEmptyBody`. -/
def sampleRawMessageEmptyBody : RawMessage :=
  ⟨some "m2", some "t2", some 1700000000000, some "s2",
   some sampleRawPartEmptyBody⟩

/-- Nested raw part for the round-trip sample: one child under the root. -/
def sampleRawPartNested : RawMessagePart :=
  .mk (some "root") (some "multipart/mixed")
    (some [⟨some "Subject", some "outer"⟩])
    (some ⟨none, some 0, none⟩)
    (some [sampleRawPart])

/-- Sample parsed part (the image of `sampleRawPart` with an empty body
instead of inline data). -/
def sampleParsedPart : MessagePart :=
  .mk (some "0") (some "text/plain") [⟨some "Subject", some "hello"⟩]
    ⟨none, some 0, none⟩ []

/-- Sample parsed message owning `sampleParsedPart`. -/
def sampleMessageObj : Message :=
  ⟨some "m1", some "t1", 0, some "s", sampleParsedPart⟩

/-- Sample descriptor whose body carries no attachment id. -/
def sampleDescriptor : MessagePartDescriptor :=
  ⟨sampleMessageObj, sampleParsedPart, ⟨none, some "text/plain"⟩⟩

/-! ## Helper lemmas -/

/-- Characterization of the Python truthiness guard in `is_limit_reached`. -/
theorem is_limit_reached_char (p : Progress) :
    p.is_limit_reached = true ↔
      ∃ l, p.limit = some l ∧ l ≠ 0 ∧ l < p.processed_items := by
  cases hl : p.limit with
  | none => simp [Progress.is_limit_reached, hl]
  | some l =>
    by_cases h0 : l = 0
    · subst h0
      simp [Progress.is_limit_reached, hl]
    · simp [Progress.is_limit_reached, hl, h0]

/-- With a truthy limit `L`, the check compares the processed count to `L`. -/
theorem is_limit_reached_eq (p : Progress) (L : Nat) (hL : p.limit = some L)
    (h0 : L ≠ 0) : p.is_limit_reached = decide (L < p.processed_items) := by
  simp [Progress.is_limit_reached, hL, h0]

/-- With a falsy limit (absent or zero) the check never fires. -/
theorem is_limit_reached_of_falsy (p : Progress) (h : natTruthy p.limit = false) :
    p.is_limit_reached = false := by
  cases hl : p.limit with
  | none => simp [Progress.is_limit_reached, hl]
  | some l =>
    rw [hl] at h
    simp only [natTruthy] at h
    simp [Progress.is_limit_reached, hl, h]

/-- The drain loop of `handle_empty_bodies` is exactly one call per
descriptor, in order. -/
theorem drainEmptyBodiesLoop_eq_map (func : MessagePartDescriptor → α) :
    ∀ l : List MessagePartDescriptor, drainEmptyBodiesLoop func l = l.map func := by
  intro l
  induction l with
  | nil => rfl
  | cons d ds ih => simp [drainEmptyBodiesLoop, ih]

/-- Eta law for raw headers: rebuilding from the two fields is the identity. -/
theorem RawHeader.mk_eta (h : RawHeader) : RawHeader.mk h.name h.value = h := rfl

/-- Round trip of the part parser on structurally well-formed raw records:
parsing succeeds and re-serializing restores the record, field by field. -/
theorem parse_serialize_roundtrip :
    (∀ (r : RawMessagePart) (mid : Option String), wf_message_part r = true →
      (parse_message_part r mid).map serialize_message_part = some r) ∧
    (∀ (rs : List RawMessagePart) (mid : Option String),
      wf_message_part_list rs = true →
      (parse_message_part_list rs mid).map serialize_message_part_list = some rs) := by
  refine parse_message_part.mutual_induct
    (fun r mid => wf_message_part r = true →
      (parse_message_part r mid).map serialize_message_part = some r)
    (fun rs mid => wf_message_part_list rs = true →
      (parse_message_part_list rs mid).map serialize_message_part_list = some rs)
    ?_ ?_ ?_ ?_
  · intro mid pid mt hdrs body h
    simp [wf_message_part] at h
  · intro mid pid mt hdrs body ps ih h
    simp only [wf_message_part, Bool.and_eq_true, Option.isSome_iff_exists] at h
    obtain ⟨⟨hs, hhs⟩, ⟨b, hb⟩, hps⟩ := h
    have hkids := ih hps
    cases hk : parse_message_part_list ps mid with
    | none => rw [hk] at hkids; simp at hkids
    | some kids =>
      rw [hk] at hkids
      simp at hkids
      subst hb
      simp [parse_message_part, parse_headers, hhs, parse_message_part_body_obj,
            hk, serialize_message_part, hkids, Function.comp_def, RawHeader.mk_eta]
  · intro mid h
    simp [parse_message_part_list, serialize_message_part_list]
  · intro mid p ps ih1 ih2 h
    simp only [wf_message_part_list, Bool.and_eq_true] at h
    have ha := ih1 h.1
    have hr := ih2 h.2
    cases hp : parse_message_part p mid with
    | none => rw [hp] at ha; simp at ha
    | some a =>
      cases hps : parse_message_part_list ps mid with
      | none => rw [hps] at hr; simp at hr
      | some rest =>
        rw [hp] at ha
        rw [hps] at hr
        simp at ha hr
        simp [parse_message_part_list, hp, hps, serialize_message_part_list, ha, hr]

/-- Re-serialization preserves tree depth. -/
theorem serialize_depth :
    (∀ p : MessagePart,
      raw_depth_part (serialize_message_part p) = depth_message_part p) ∧
    (∀ ps : List MessagePart,
      raw_depth_list (serialize_message_part_list ps) = depth_message_part_list ps) := by
  refine serialize_message_part.mutual_induct
    (fun p => raw_depth_part (serialize_message_part p) = depth_message_part p)
    (fun ps => raw_depth_list (serialize_message_part_list ps) = depth_message_part_list ps)
    ?_ ?_ ?_
  · intro pid mt headers b kids ih
    simp [serialize_message_part, raw_depth_part, depth_message_part, ih]
  · simp [serialize_message_part_list, raw_depth_list, depth_message_part_list]
  · intro p ps ih1 ih2
    simp [serialize_message_part_list, raw_depth_list, depth_message_part_list, ih1, ih2]

/-- Re-serialization preserves the number of empty-body parts. -/
theorem serialize_empty_body_count :
    (∀ p : MessagePart,
      raw_empty_body_count (serialize_message_part p) = empty_body_count_part p) ∧
    (∀ ps : List MessagePart,
      raw_empty_body_count_list (serialize_message_part_list ps) =
        empty_body_count_list ps) := by
  refine serialize_message_part.mutual_induct
    (fun p => raw_empty_body_count (serialize_message_part p) = empty_body_count_part p)
    (fun ps => raw_empty_body_count_list (serialize_message_part_list ps) =
      empty_body_count_list ps)
    ?_ ?_ ?_
  · intro pid mt headers b kids ih
    simp [serialize_message_part, raw_empty_body_count, empty_body_count_part, ih,
          rawBodyIsEmpty, bodyIsEmpty]
  · simp [serialize_message_part_list, raw_empty_body_count_list, empty_body_count_list]
  · intro p ps ih1 ih2
    simp [serialize_message_part_list, raw_empty_body_count_list,
          empty_body_count_list, ih1, ih2]

/-- Collected empty-body descriptors are one per empty-body part. -/
theorem collect_empty_bodies_length (msg : Message) :
    (∀ p : MessagePart,
      (collect_empty_bodies_part msg p).length = empty_body_count_part p) ∧
    (∀ ps : List MessagePart,
      (collect_empty_bodies_list msg ps).length = empty_body_count_list ps) := by
  refine collect_empty_bodies_part.mutual_induct msg
    (fun p => (collect_empty_bodies_part msg p).length = empty_body_count_part p)
    (fun ps => (collect_empty_bodies_list msg ps).length = empty_body_count_list ps)
    ?_ ?_ ?_
  · intro pid mt headers b kids ih
    by_cases hb : bodyIsEmpty b
    · simp [collect_empty_bodies_part, empty_body_count_part, hb, ih]
      omega
    · simp [collect_empty_bodies_part, empty_body_count_part, hb, ih]
  · simp [collect_empty_bodies_list, empty_body_count_list]
  · intro p ps ih1 ih2
    simp [collect_empty_bodies_list, empty_body_count_list, ih1, ih2]

/-- Success of the detail step is independent of the loop context. -/
theorem process_thread_step_isSome (env : SessionEnv) (tid : Option String)
    (ctx : ApiConversionContext) :
    (process_thread_step env tid ctx).isSome = stepOk env tid := by
  cases hm : (env.getThread tid).messages with
  | none => simp [process_thread_step, stepOk, thread_of, hm]
  | some ms =>
    cases hp : parse_api_message_list ms with
    | none => simp [process_thread_step, stepOk, thread_of, hm, hp]
    | some messages =>
      cases ht : mk_thread_obj tid messages with
      | none => simp [process_thread_step, stepOk, thread_of, hm, hp, ht]
      | some tobj => simp [process_thread_step, stepOk, thread_of, hm, hp, ht]

/-- A successful detail step yields the thread of `thread_of`, leaves the
progress counters untouched, appends exactly the decode errors contributed by
the processed thread, and leaves the empty-body buffer drained. -/
theorem process_thread_step_some (env : SessionEnv) (tid : Option String)
    (ctx : ApiConversionContext) (t : Thread) (c2 : ApiConversionContext)
    (fs : List AttachmentFetch)
    (h : process_thread_step env tid ctx = some (t, c2, fs)) :
    thread_of env tid = some t ∧
    c2.progress = ctx.progress ∧
    c2.decode_errors = ctx.decode_errors ++ decode_errors_of env tid ∧
    c2.empty_bodies = [] := by
  cases hm : (env.getThread tid).messages with
  | none => simp [process_thread_step, hm] at h
  | some ms =>
    cases hp : parse_api_message_list ms with
    | none => simp [process_thread_step, hm, hp] at h
    | some messages =>
      cases ht : mk_thread_obj tid messages with
      | none => simp [process_thread_step, hm, hp, ht] at h
      | some tobj =>
        simp only [process_thread_step, hm, hp, ht,
          ApiConversionContext.handle_empty_bodies, convert_and_report,
          Option.some.injEq, Prod.mk.injEq] at h
        obtain ⟨h1, h2, h3⟩ := h
        subst h1
        subst h2
        refine ⟨?_, rfl, ?_, rfl⟩
        · simp [thread_of, hm, hp, ht]
        · simp [decode_errors_of, hm, hp]

/-- Unconditional invariant of the inner loop: the processed-id list only
grows, and the decode-error buffer grows by exactly the decode errors of the
newly processed ids, in order. -/
theorem process_thread_ids_decode_invariant (env : SessionEnv) :
    ∀ (ids : List (Option String)) (st : LoopState) (b : Bool) (st2 : LoopState),
      process_thread_ids env ids st = some (b, st2) →
      ∃ newIds, st2.processed_ids = st.processed_ids ++ newIds ∧
        st2.ctx.decode_errors =
          st.ctx.decode_errors ++ newIds.flatMap (decode_errors_of env) := by
  intro ids
  induction ids with
  | nil =>
    intro st b st2 h
    simp only [process_thread_ids, Option.some.injEq, Prod.mk.injEq] at h
    obtain ⟨_, h2⟩ := h
    exact ⟨[], by simp [← h2], by simp [← h2]⟩
  | cons tid rest ih =>
    intro st b st2 h
    simp only [process_thread_ids] at h
    by_cases hlim : ({ st.ctx with progress := st.ctx.progress.incr_processed_items } :
        ApiConversionContext).progress.is_limit_reached
    · rw [if_pos hlim] at h
      simp only [Option.some.injEq, Prod.mk.injEq] at h
      obtain ⟨_, h2⟩ := h
      exact ⟨[], by simp [← h2], by simp [← h2]⟩
    · rw [if_neg hlim] at h
      cases hstep : process_thread_step env tid
          { st.ctx with progress := st.ctx.progress.incr_processed_items } with
      | none => rw [hstep] at h; exact absurd h (by simp)
      | some v =>
        obtain ⟨t, c2, fs⟩ := v
        rw [hstep] at h
        obtain ⟨-, -, hdec, -⟩ := process_thread_step_some env tid _ t c2 fs hstep
        obtain ⟨newIds, hids, herrs⟩ := ih _ b st2 h
        refine ⟨tid :: newIds, ?_, ?_⟩
        · simp only [hids]
          simp
        · simp only [herrs, hdec]
          simp

/-- Inner loop with a falsy limit and successful steps: every candidate id is
processed, in order, with no early return. -/
theorem process_thread_ids_no_limit (env : SessionEnv) :
    ∀ (ids : List (Option String)) (st : LoopState),
      natTruthy st.ctx.progress.limit = false →
      (∀ tid ∈ ids, stepOk env tid = true) →
      ∃ st2, process_thread_ids env ids st = some (false, st2) ∧
        st2.processed_ids = st.processed_ids ++ ids ∧
        st2.threads.length = st.threads.length + ids.length ∧
        st2.ctx.progress.limit = st.ctx.progress.limit ∧
        st2.ctx.progress.processed_items =
          st.ctx.progress.processed_items + ids.length := by
  intro ids
  induction ids with
  | nil =>
    intro st hl hok
    exact ⟨st, by simp [process_thread_ids], by simp, by simp, rfl, by simp⟩
  | cons tid rest ih =>
    intro st hl hok
    have hfalse : ({ st.ctx with progress := st.ctx.progress.incr_processed_items } :
        ApiConversionContext).progress.is_limit_reached = false := by
      apply is_limit_reached_of_falsy
      simpa [Progress.incr_processed_items] using hl
    have hsok : stepOk env tid = true := hok tid (by simp)
    have hiss := process_thread_step_isSome env tid
      { st.ctx with progress := st.ctx.progress.incr_processed_items }
    rw [hsok, Option.isSome_iff_exists] at hiss
    obtain ⟨⟨t, c2, fs⟩, hstep⟩ := hiss
    obtain ⟨-, hprog, -, -⟩ := process_thread_step_some env tid _ t c2 fs hstep
    set st1 : LoopState :=
      { threads := st.threads ++ [t]
        ctx := c2
        processed_ids := st.processed_ids ++ [tid]
        fetches := st.fetches ++ fs } with hst1
    have hl1 : natTruthy st1.ctx.progress.limit = false := by
      rw [hst1]
      simp only [hprog]
      simpa [Progress.incr_processed_items] using hl
    obtain ⟨st2, hrun, hids, hlen, hlim, hcnt⟩ :=
      ih st1 hl1 (fun x hx => hok x (by simp [hx]))
    refine ⟨st2, ?_, ?_, ?_, ?_, ?_⟩
    · simp only [process_thread_ids, hfalse, if_neg Bool.false_ne_true, hstep]
      exact hrun
    · rw [hids, hst1]
      simp
    · rw [hlen, hst1]
      simp
      omega
    · rw [hlim, hst1]
      simp only [hprog]
      simp [Progress.incr_processed_items]
    · rw [hcnt, hst1]
      simp only [hprog]
      simp [Progress.incr_processed_items]
      omega

/-- Inner loop with a truthy limit `L` and more candidates than the remaining
capacity: exactly `L - processed` further ids are processed and retained, the
counter ends at `L + 1`, and the loop returns early from inside. -/
theorem process_thread_ids_overflow (env : SessionEnv) :
    ∀ (ids : List (Option String)) (st : LoopState) (L : Nat),
      st.ctx.progress.limit = some L → L ≠ 0 →
      st.ctx.progress.processed_items ≤ L →
      L < st.ctx.progress.processed_items + ids.length →
      (∀ tid ∈ ids, stepOk env tid = true) →
      ∃ st2, process_thread_ids env ids st = some (true, st2) ∧
        st2.processed_ids =
          st.processed_ids ++ ids.take (L - st.ctx.progress.processed_items) ∧
        st2.threads.length =
          st.threads.length + (L - st.ctx.progress.processed_items) ∧
        st2.ctx.progress.processed_items = L + 1 ∧
        st2.ctx.progress.limit = some L := by
  intro ids
  induction ids with
  | nil =>
    intro st L hL h0 hle hlt hok
    simp only [List.length_nil] at hlt
    omega
  | cons tid rest ih =>
    intro st L hL h0 hle hlt hok
    have hlim1 : ({ st.ctx with progress := st.ctx.progress.incr_processed_items } :
        ApiConversionContext).progress.is_limit_reached =
        decide (L < st.ctx.progress.processed_items + 1) := by
      apply is_limit_reached_eq
      · simp [Progress.incr_processed_items, hL]
      · exact h0
    by_cases hcap : st.ctx.progress.processed_items = L
    · -- the incremented counter exceeds the limit: early return, nothing added
      have htrue : ({ st.ctx with progress := st.ctx.progress.incr_processed_items } :
          ApiConversionContext).progress.is_limit_reached = true := by
        rw [hlim1]
        simp [hcap]
      refine ⟨{ st with ctx :=
          { st.ctx with progress := st.ctx.progress.incr_processed_items } }, ?_, ?_, ?_, ?_, ?_⟩
      · simp [process_thread_ids, htrue]
      · simp [hcap]
      · simp [hcap]
      · simp [Progress.incr_processed_items, hcap]
      · simp [Progress.incr_processed_items, hL]
    · -- capacity remains: the head id is processed and the loop continues
      have hlt1 : st.ctx.progress.processed_items < L := by omega
      have hfalse : ({ st.ctx with progress := st.ctx.progress.incr_processed_items } :
          ApiConversionContext).progress.is_limit_reached = false := by
        rw [hlim1]
        simp only [decide_eq_false_iff_not]
        omega
      have hsok : stepOk env tid = true := hok tid (by simp)
      have hiss := process_thread_step_isSome env tid
        { st.ctx with progress := st.ctx.progress.incr_processed_items }
      rw [hsok, Option.isSome_iff_exists] at hiss
      obtain ⟨⟨t, c2, fs⟩, hstep⟩ := hiss
      obtain ⟨-, hprog, -, -⟩ := process_thread_step_some env tid _ t c2 fs hstep
      have hL1 : c2.progress.limit = some L := by
        rw [hprog]
        simp [Progress.incr_processed_items, hL]
      have hcnt1 : c2.progress.processed_items =
          st.ctx.progress.processed_items + 1 := by
        rw [hprog]
        simp [Progress.incr_processed_items]
      have hlen2 : L < st.ctx.progress.processed_items + 1 + rest.length := by
        simp only [List.length_cons] at hlt
        omega
      obtain ⟨st2, hrun, hids, hlen, hcnt, hlim⟩ :=
        ih { threads := st.threads ++ [t]
             ctx := c2
             processed_ids := st.processed_ids ++ [tid]
             fetches := st.fetches ++ fs } L
          hL1 h0 (by simp only [hcnt1]; omega) (by simp only [hcnt1]; omega)
          (fun x hx => hok x (by simp [hx]))
      simp only [hcnt1] at hids hlen
      have hk : L - st.ctx.progress.processed_items =
          (L - (st.ctx.progress.processed_items + 1)) + 1 := by omega
      refine ⟨st2, ?_, ?_, ?_, hcnt, hlim⟩
      · simp only [process_thread_ids, hfalse, if_neg Bool.false_ne_true, hstep]
        exact hrun
      · rw [hids, hk]
        simp [List.take_succ_cons]
      · rw [hlen, hk]
        simp
        omega

/-- Definitional unfolding of the paging loop at a real page. -/
theorem process_pages_cons_some (env : SessionEnv) (page : Page)
    (rest : List (Option Page)) (st : LoopState) :
    process_pages env (some page :: rest) st =
      match process_thread_ids env (env.oracle (page.threads.map RawThreadSummary.id))
          { st with ctx := { st.ctx with progress :=
              (st.ctx.progress.incr_requests).register_new_items page.threads.length } } with
      | none => none
      | some (true, st1) => some (true, st1)
      | some (false, st1) => process_pages env rest st1 := by
  rfl

/-- Unconditional invariant of the paging loop: processed ids only grow and
the decode-error buffer grows by exactly their decode errors, in order. -/
theorem process_pages_decode_invariant (env : SessionEnv) :
    ∀ (pages : List (Option Page)) (st : LoopState) (b : Bool) (st2 : LoopState),
      process_pages env pages st = some (b, st2) →
      ∃ newIds, st2.processed_ids = st.processed_ids ++ newIds ∧
        st2.ctx.decode_errors =
          st.ctx.decode_errors ++ newIds.flatMap (decode_errors_of env) := by
  intro pages
  induction pages with
  | nil =>
    intro st b st2 h
    simp only [process_pages, Option.some.injEq, Prod.mk.injEq] at h
    obtain ⟨-, h2⟩ := h
    exact ⟨[], by simp [← h2], by simp [← h2]⟩
  | cons pg rest ih =>
    intro st b st2 h
    cases pg with
    | none =>
      rw [show process_pages env (none :: rest) st = process_pages env rest st from rfl] at h
      exact ih st b st2 h
    | some page =>
      rw [process_pages_cons_some] at h
      cases hinner : process_thread_ids env (env.oracle (page.threads.map RawThreadSummary.id))
          { st with ctx := { st.ctx with progress :=
              (st.ctx.progress.incr_requests).register_new_items page.threads.length } } with
      | none => rw [hinner] at h; exact absurd h (by simp)
      | some v =>
        obtain ⟨b1, st1⟩ := v
        rw [hinner] at h
        obtain ⟨new1, hi1, he1⟩ := process_thread_ids_decode_invariant env _ _ _ _ hinner
        simp only at hi1 he1
        cases b1 with
        | true =>
          simp only [Option.some.injEq, Prod.mk.injEq] at h
          obtain ⟨-, h2⟩ := h
          subst h2
          exact ⟨new1, hi1, he1⟩
        | false =>
          obtain ⟨new2, hi2, he2⟩ := ih st1 b st2 h
          refine ⟨new1 ++ new2, ?_, ?_⟩
          · rw [hi2, hi1]
            simp
          · rw [he2, he1]
            simp

/-- Paging loop with a falsy limit, an accept-everything oracle and successful
steps: the session never returns early and processes every candidate id of
every page, in order, exactly once. -/
theorem process_pages_no_limit (env : SessionEnv)
    (horacle : ∀ ids, env.oracle ids = ids) :
    ∀ (pages : List (Option Page)) (st : LoopState),
      natTruthy st.ctx.progress.limit = false →
      (∀ tid ∈ pages_thread_ids pages, stepOk env tid = true) →
      ∃ st2, process_pages env pages st = some (false, st2) ∧
        st2.processed_ids = st.processed_ids ++ pages_thread_ids pages := by
  intro pages
  induction pages with
  | nil =>
    intro st hl hok
    exact ⟨st, by simp [process_pages], by simp [pages_thread_ids]⟩
  | cons pg rest ih =>
    intro st hl hok
    cases pg with
    | none =>
      obtain ⟨st2, h1, h2⟩ := ih st hl (fun x hx => hok x (by simpa [pages_thread_ids] using hx))
      refine ⟨st2, ?_, ?_⟩
      · rw [show process_pages env (none :: rest) st = process_pages env rest st from rfl]
        exact h1
      · rw [h2]
        rfl
    | some page =>
      have hok1 : ∀ tid ∈ page.threads.map RawThreadSummary.id, stepOk env tid = true := by
        intro x hx
        exact hok x (by simp only [pages_thread_ids, List.mem_append]; exact Or.inl hx)
      obtain ⟨st1, hrun, hids, hlen, hlim, hcnt⟩ :=
        process_thread_ids_no_limit env (page.threads.map RawThreadSummary.id)
          { st with ctx := { st.ctx with progress :=
              (st.ctx.progress.incr_requests).register_new_items page.threads.length } }
          (by simpa [Progress.incr_requests, Progress.register_new_items] using hl)
          hok1
      simp only at hids hlim
      have hl1 : natTruthy st1.ctx.progress.limit = false := by
        rw [hlim]
        simpa [Progress.incr_requests, Progress.register_new_items] using hl
      obtain ⟨st2, hrun2, hids2⟩ := ih st1 hl1
        (fun x hx => hok x (by simp only [pages_thread_ids, List.mem_append]; exact Or.inr hx))
      refine ⟨st2, ?_, ?_⟩
      · rw [process_pages_cons_some, horacle, hrun]
        exact hrun2
      · rw [hids2, hids]
        simp [pages_thread_ids]

/-- One page of candidates behind a configured nonzero limit smaller than the
page: the session runs the detail step for exactly the first `L` candidates,
then returns early from inside the loop with the counter at `L + 1`. -/
theorem single_page_limited (env : SessionEnv) (summaries : List RawThreadSummary)
    (L : Nat) (h0 : L ≠ 0)
    (hor : env.oracle (summaries.map RawThreadSummary.id) =
      summaries.map RawThreadSummary.id)
    (hlen : L < summaries.length)
    (hok : ∀ tid ∈ summaries.map RawThreadSummary.id, stepOk env tid = true) :
    ∃ st2, process_pages env [some ⟨summaries⟩]
        ⟨[], ApiConversionContext.init (some L), [], []⟩ = some (true, st2) ∧
      st2.processed_ids = (summaries.map RawThreadSummary.id).take L ∧
      st2.threads.length = L ∧
      st2.ctx.progress.processed_items = L + 1 := by
  obtain ⟨st2, hrun, hids, hlen2, hcnt, hlim⟩ :=
    process_thread_ids_overflow env (summaries.map RawThreadSummary.id)
      { threads := []
        ctx := { ApiConversionContext.init (some L) with progress :=
          (((ApiConversionContext.init (some L)).progress.incr_requests).register_new_items
            ((⟨summaries⟩ : Page).threads.length)) }
        processed_ids := []
        fetches := [] } L
      (by simp [ApiConversionContext.init, Progress.init, Progress.incr_requests,
        Progress.register_new_items])
      h0
      (by simp [ApiConversionContext.init, Progress.init, Progress.incr_requests,
        Progress.register_new_items])
      (by simp [ApiConversionContext.init, Progress.init, Progress.incr_requests,
        Progress.register_new_items]
          omega)
      hok
  simp only at hids hlen2
  refine ⟨st2, ?_, ?_, ?_, hcnt⟩
  · rw [process_pages_cons_some, hor, hrun]
  · rw [hids]
    simp [ApiConversionContext.init, Progress.init, Progress.incr_requests,
      Progress.register_new_items]
  · rw [hlen2]
    simp [ApiConversionContext.init, Progress.init, Progress.incr_requests,
      Progress.register_new_items]

/-- Definitional unfolding of the session entry point. -/
theorem query_eq_match (env : SessionEnv) (pages : List (Option Page))
    (limit : Option Nat) :
    query_threads_with_paging env pages limit =
      match process_pages env pages ⟨[], ApiConversionContext.init limit, [], []⟩ with
      | none => .failure
      | some (true, st) => .limitStop st.threads st.ctx st.processed_ids st.fetches
      | some (false, st) =>
        .finished st.threads st.ctx.handle_encoding_errors st.processed_ids st.fetches := by
  rfl

/-! ## Claim theorems -/

/-- C1, counterexample: with a configured limit of 0 the claim fails. A
progress tracker with limit 0 and one processed item has a configured limit
that the processed count strictly exceeds, yet `is_limit_reached` is false
(Python truthiness treats limit 0 as no limit), and a session with limit 0
over one candidate does not terminate early: it finishes normally and returns
one thread, although the claim requires termination before the first item is
added. -/
theorem c1_counterexample :
    (Progress.init (some 0)).incr_processed_items.limit = some 0 ∧
    0 < (Progress.init (some 0)).incr_processed_items.processed_items ∧
    (Progress.init (some 0)).incr_processed_items.is_limit_reached = false ∧
    (query_threads_with_paging sampleEnv [some ⟨[summary "t1"]⟩]
      (some 0)).isFinished = true ∧
    (query_threads_with_paging sampleEnv [some ⟨[summary "t1"]⟩]
      (some 0)).threadCount = 1 := by
  refine ⟨rfl, ?_, rfl, ?_, ?_⟩ <;> decide

/-- C1, amended to nonzero limits: `is_limit_reached` returns true iff a
nonzero limit was configured and the processed count strictly exceeds it, and
for every configured limit L ≥ 1 the session stops exactly when the processed
count first strictly exceeds L: the first L candidates are processed and
retained (the Lth included) and the (L+1)th candidate triggers the early
return before its thread is fetched or added. -/
theorem c1_limit_boundary :
    (∀ p : Progress, p.is_limit_reached = true ↔
      ∃ l, p.limit = some l ∧ l ≠ 0 ∧ l < p.processed_items) ∧
    (∀ (env : SessionEnv) (summaries : List RawThreadSummary) (L : Nat),
      L ≠ 0 →
      env.oracle (summaries.map RawThreadSummary.id) =
        summaries.map RawThreadSummary.id →
      L < summaries.length →
      (∀ tid ∈ summaries.map RawThreadSummary.id, stepOk env tid = true) →
      (query_threads_with_paging env [some ⟨summaries⟩] (some L)).isLimitStop = true ∧
      (query_threads_with_paging env [some ⟨summaries⟩] (some L)).processedIds =
        (summaries.map RawThreadSummary.id).take L ∧
      (query_threads_with_paging env [some ⟨summaries⟩] (some L)).threadCount = L) := by
  constructor
  · exact is_limit_reached_char
  · intro env summaries L h0 hor hlen hok
    obtain ⟨st2, hrun, hids, hlen2, hcnt⟩ :=
      single_page_limited env summaries L h0 hor hlen hok
    have hq : query_threads_with_paging env [some ⟨summaries⟩] (some L) =
        .limitStop st2.threads st2.ctx st2.processed_ids st2.fetches := by
      rw [query_eq_match, hrun]
    rw [hq]
    exact ⟨rfl, hids, hlen2⟩

/-- C1, witness of the amended theorem at a concrete input: limit 1 over a
page of two candidates. -/
theorem c1_limit_boundary_witness :
    (query_threads_with_paging sampleEnv [some ⟨[summary "t1", summary "t2"]⟩]
      (some 1)).isLimitStop = true ∧
    (query_threads_with_paging sampleEnv [some ⟨[summary "t1", summary "t2"]⟩]
      (some 1)).processedIds =
      ([summary "t1", summary "t2"].map RawThreadSummary.id).take 1 ∧
    (query_threads_with_paging sampleEnv [some ⟨[summary "t1", summary "t2"]⟩]
      (some 1)).threadCount = 1 :=
  c1_limit_boundary.2 sampleEnv [summary "t1", summary "t2"] 1 (by decide) rfl
    (by decide) (by decide)

/-- C2, counterexample: limit 2 with a first page of three fetch-requiring
summaries returns exactly 2 threads, but the processed-items counter at that
point is 3, not 2 as the claim states: the counter is incremented for the
third candidate before the limit check fires. -/
theorem c2_counterexample :
    (query_threads_with_paging sampleEnv [some samplePage3] (some 2)).threadCount = 2 ∧
    (query_threads_with_paging sampleEnv [some samplePage3] (some 2)).processedItems = 3 ∧
    ¬ (query_threads_with_paging sampleEnv [some samplePage3]
      (some 2)).processedItems = 2 := by
  refine ⟨?_, ?_, ?_⟩ <;> decide

/-- C2, amended: with limit 2 and a first page of three summaries all
requiring fetch, the orchestrator fetches exactly 2 threads (the first two
candidates), returns a collection of exactly 2 Thread objects via the early
return, and the processed-items counter equals 3: it also counts the third
candidate, whose increment triggered the termination check. -/
theorem c2_limit_two_scenario (env : SessionEnv) (s1 s2 s3 : RawThreadSummary)
    (hor : env.oracle [s1.id, s2.id, s3.id] = [s1.id, s2.id, s3.id])
    (hok : ∀ tid ∈ [s1.id, s2.id, s3.id], stepOk env tid = true) :
    (query_threads_with_paging env [some ⟨[s1, s2, s3]⟩] (some 2)).isLimitStop = true ∧
    (query_threads_with_paging env [some ⟨[s1, s2, s3]⟩] (some 2)).threadCount = 2 ∧
    (query_threads_with_paging env [some ⟨[s1, s2, s3]⟩] (some 2)).processedIds =
      [s1.id, s2.id] ∧
    (query_threads_with_paging env [some ⟨[s1, s2, s3]⟩]
      (some 2)).processedItems = 3 := by
  obtain ⟨st2, hrun, hids, hlen2, hcnt⟩ :=
    single_page_limited env [s1, s2, s3] 2 (by decide) (by simpa using hor)
      (by simp) (by simpa using hok)
  have hq : query_threads_with_paging env [some ⟨[s1, s2, s3]⟩] (some 2) =
      .limitStop st2.threads st2.ctx st2.processed_ids st2.fetches := by
    rw [query_eq_match, hrun]
  rw [hq]
  refine ⟨rfl, hlen2, ?_, hcnt⟩
  rw [show SessionOutcome.processedIds
      (.limitStop st2.threads st2.ctx st2.processed_ids st2.fetches) =
      st2.processed_ids from rfl, hids]
  simp

/-- C2, witness of the amended theorem at a concrete input. -/
theorem c2_limit_two_witness :
    (query_threads_with_paging sampleEnv [some ⟨[summary "t1", summary "t2",
      summary "t3"]⟩] (some 2)).isLimitStop = true ∧
    (query_threads_with_paging sampleEnv [some ⟨[summary "t1", summary "t2",
      summary "t3"]⟩] (some 2)).threadCount = 2 ∧
    (query_threads_with_paging sampleEnv [some ⟨[summary "t1", summary "t2",
      summary "t3"]⟩] (some 2)).processedIds =
      [(summary "t1").id, (summary "t2").id] ∧
    (query_threads_with_paging sampleEnv [some ⟨[summary "t1", summary "t2",
      summary "t3"]⟩] (some 2)).processedItems = 3 :=
  c2_limit_two_scenario sampleEnv (summary "t1") (summary "t2") (summary "t3")
    rfl (by decide)

/-- C5: for every finite sequence of list pages the pagination loop
terminates without an early return exactly when the continuation is
exhausted, and with an oracle that accepts every candidate and no configured
limit, every thread summary across all (non-falsy) pages is processed exactly
once, in order: the processed ids are precisely the concatenation of the page
summaries. -/
theorem c5_pagination_exactly_once (env : SessionEnv) (pages : List (Option Page))
    (horacle : ∀ ids, env.oracle ids = ids)
    (hok : ∀ tid ∈ pages_thread_ids pages, stepOk env tid = true) :
    (query_threads_with_paging env pages none).isFinished = true ∧
    (query_threads_with_paging env pages none).processedIds =
      pages_thread_ids pages := by
  obtain ⟨st2, hrun, hids⟩ := process_pages_no_limit env horacle pages
    ⟨[], ApiConversionContext.init none, [], []⟩ rfl hok
  have hq : query_threads_with_paging env pages none =
      .finished st2.threads st2.ctx.handle_encoding_errors st2.processed_ids
        st2.fetches := by
    rw [query_eq_match, hrun]
  rw [hq]
  refine ⟨rfl, ?_⟩
  rw [show SessionOutcome.processedIds (.finished st2.threads
      st2.ctx.handle_encoding_errors st2.processed_ids st2.fetches) =
      st2.processed_ids from rfl, hids]
  simp

/-- C5, witness at a concrete input: two real pages around one falsy
response. -/
theorem c5_pagination_witness :
    (query_threads_with_paging sampleEnv [some ⟨[summary "t1"]⟩, none,
      some ⟨[summary "t2", summary "t3"]⟩] none).isFinished = true ∧
    (query_threads_with_paging sampleEnv [some ⟨[summary "t1"]⟩, none,
      some ⟨[summary "t2", summary "t3"]⟩] none).processedIds =
      pages_thread_ids [some ⟨[summary "t1"]⟩, none,
        some ⟨[summary "t2", summary "t3"]⟩] :=
  c5_pagination_exactly_once sampleEnv
    [some ⟨[summary "t1"]⟩, none, some ⟨[summary "t2", summary "t3"]⟩]
    (fun _ => rfl) (by decide)

/-- C9: when the session terminates early because the limit was reached, the
partial collection is returned from inside the loop and the finalize step is
skipped: `handle_encoding_errors` is not called, so the decode-error buffer
still holds exactly the descriptors accumulated for the processed threads; on
normal (non-limited) termination the buffer is cleared. -/
theorem c9_limit_skips_finalize (env : SessionEnv) (pages : List (Option Page))
    (limit : Option Nat) :
    ((query_threads_with_paging env pages limit).isLimitStop = true →
      (query_threads_with_paging env pages limit).decodeErrors =
        ((query_threads_with_paging env pages limit).processedIds).flatMap
          (decode_errors_of env)) ∧
    ((query_threads_with_paging env pages limit).isFinished = true →
      (query_threads_with_paging env pages limit).decodeErrors = []) := by
  rw [query_eq_match]
  cases hrun : process_pages env pages ⟨[], ApiConversionContext.init limit, [], []⟩ with
  | none =>
    exact ⟨fun h => absurd h (by simp [SessionOutcome.isLimitStop]),
           fun h => absurd h (by simp [SessionOutcome.isFinished])⟩
  | some v =>
    obtain ⟨b, st⟩ := v
    obtain ⟨newIds, hids, herrs⟩ :=
      process_pages_decode_invariant env pages _ b st hrun
    simp only [ApiConversionContext.init] at hids herrs
    cases b with
    | true =>
      refine ⟨fun _ => ?_, fun h => absurd h (by simp [SessionOutcome.isFinished])⟩
      rw [show SessionOutcome.decodeErrors (.limitStop st.threads st.ctx
          st.processed_ids st.fetches) = st.ctx.decode_errors from rfl]
      rw [show SessionOutcome.processedIds (.limitStop st.threads st.ctx
          st.processed_ids st.fetches) = st.processed_ids from rfl]
      rw [herrs, hids]
      simp
    | false =>
      refine ⟨fun h => absurd h (by simp [SessionOutcome.isLimitStop]), fun _ => rfl⟩

/-- C9, witness at a concrete input: a limited session over undecodable data
retains one decode-error descriptor in the returned context. -/
theorem c9_limit_skips_finalize_witness :
    (query_threads_with_paging sampleEnvUndecodable [some samplePage3]
      (some 1)).isLimitStop = true ∧
    (query_threads_with_paging sampleEnvUndecodable [some samplePage3]
      (some 1)).decodeErrors =
      ((query_threads_with_paging sampleEnvUndecodable [some samplePage3]
        (some 1)).processedIds).flatMap (decode_errors_of sampleEnvUndecodable) ∧
    ((query_threads_with_paging sampleEnvUndecodable [some samplePage3]
      (some 1)).decodeErrors).length = 1 :=
  ⟨by decide,
   (c9_limit_skips_finalize sampleEnvUndecodable [some samplePage3] (some 1)).1
     (by decide),
   by decide⟩

/-- C3: for every raw message whose structural fields are present, parsing
succeeds (an empty body never fails the Message construction) and the
conversion records exactly one empty-body descriptor per part whose body
carries neither inline data nor an attachment reference id: the number of
recorded descriptors equals the number of such raw part records. -/
theorem c3_empty_body_recorded (m : RawMessage) (pp : RawMessagePart)
    (hpayload : m.payload = some pp) (hwf : wf_raw_message m = true) :
    (parse_api_message m).isSome = true ∧
    (parse_api_message m).map (fun msg => (collect_empty_bodies msg).length) =
      some (raw_empty_body_count pp) := by
  simp only [wf_raw_message, hpayload, Bool.and_eq_true,
    Option.isSome_iff_exists] at hwf
  obtain ⟨hwfp, d, hd⟩ := hwf
  have hround := parse_serialize_roundtrip.1 pp m.id hwfp
  cases hparse : parse_message_part pp m.id with
  | none => rw [hparse] at hround; simp at hround
  | some pobj =>
    rw [hparse] at hround
    simp at hround
    have hmsg : parse_api_message m =
        some ⟨m.id, m.threadId, (d : Rat) / 1000, m.snippet, pobj⟩ := by
      unfold parse_api_message
      rw [hpayload]
      simp only [hparse, hd, Option.bind_some, Option.map_some]
      rfl
    rw [hmsg]
    refine ⟨rfl, ?_⟩
    simp only [Option.map_some', Option.some_inj]
    rw [show collect_empty_bodies ⟨m.id, m.threadId, (d : Rat) / 1000, m.snippet,
      pobj⟩ = collect_empty_bodies_part ⟨m.id, m.threadId, (d : Rat) / 1000,
      m.snippet, pobj⟩ pobj from rfl]
    rw [(collect_empty_bodies_length _).1 pobj, ← hround]
    exact (serialize_empty_body_count.1 pobj).symm

/-- C3, witness at a concrete input: a message with one empty-body part
records exactly one descriptor and still parses. -/
theorem c3_empty_body_witness :
    wf_raw_message sampleRawMessageEmptyBody = true ∧
    raw_empty_body_count sampleRawPartEmptyBody = 1 ∧
    ((parse_api_message sampleRawMessageEmptyBody).isSome = true ∧
     (parse_api_message sampleRawMessageEmptyBody).map
       (fun msg => (collect_empty_bodies msg).length) =
       some (raw_empty_body_count sampleRawPartEmptyBody)) :=
  ⟨by decide, by decide,
   c3_empty_body_recorded sampleRawMessageEmptyBody sampleRawPartEmptyBody rfl
     (by decide)⟩

/-- C4: on every structurally well-formed raw part record the parser
succeeds, re-serializing the parsed tree restores the raw record field by
field (so every header name/value and body field is copied verbatim and the
branching is identical), and the parsed tree has the same depth as the raw
tree. -/
theorem c4_parser_roundtrip (r : RawMessagePart) (message_id : Option String)
    (hwf : wf_message_part r = true) :
    (parse_message_part r message_id).map serialize_message_part = some r ∧
    (parse_message_part r message_id).map depth_message_part =
      some (raw_depth_part r) := by
  have h1 := parse_serialize_roundtrip.1 r message_id hwf
  refine ⟨h1, ?_⟩
  cases hp : parse_message_part r message_id with
  | none => rw [hp] at h1; simp at h1
  | some p =>
    rw [hp] at h1
    simp at h1 ⊢
    rw [← h1]
    exact (serialize_depth.1 p).symm

/-- C4, witness at a concrete input: a two-level raw part tree. -/
theorem c4_parser_roundtrip_witness :
    wf_message_part sampleRawPartNested = true ∧
    ((parse_message_part sampleRawPartNested none).map serialize_message_part =
       some sampleRawPartNested ∧
     (parse_message_part sampleRawPartNested none).map depth_message_part =
       some (raw_depth_part sampleRawPartNested)) :=
  ⟨by decide, c4_parser_roundtrip sampleRawPartNested none (by decide)⟩

/-- C6: every successfully parsed message carries a timestamp equal to the
raw internal-date value (Unix epoch milliseconds) divided by 1000, alongside
the message id, thread id, snippet and the parsed root part. -/
theorem c6_timestamp_millis_to_seconds (m : RawMessage)
    (h : (parse_api_message m).isSome = true) :
    m.internalDate.isSome = true ∧
    (parse_api_message m).map Message.date =
      some (((m.internalDate.getD 0 : Int) : Rat) / 1000) ∧
    (parse_api_message m).map Message.id = some m.id ∧
    (parse_api_message m).map Message.threadId = some m.threadId ∧
    (parse_api_message m).map Message.snippet = some m.snippet ∧
    (parse_api_message m).map Message.payload =
      m.payload.bind (fun pp => parse_message_part pp m.id) := by
  cases hpay : m.payload with
  | none => rw [show parse_api_message m = none by unfold parse_api_message; rw [hpay]] at h; simp at h
  | some pp =>
    cases hparse : parse_message_part pp m.id with
    | none =>
      rw [show parse_api_message m = none by
        unfold parse_api_message; rw [hpay]; simp [hparse]] at h
      simp at h
    | some pobj =>
      cases hd : m.internalDate with
      | none =>
        rw [show parse_api_message m = none by
          unfold parse_api_message; rw [hpay]; simp [hparse, hd]] at h
        simp at h
      | some d =>
        have hmsg : parse_api_message m =
            some ⟨m.id, m.threadId, (d : Rat) / 1000, m.snippet, pobj⟩ := by
          unfold parse_api_message
          rw [hpay]
          simp only [hparse, hd, Option.bind_some, Option.map_some]
          rfl
        rw [hmsg]
        exact ⟨rfl, rfl, rfl, rfl, rfl, by simp [hparse]⟩

/-- C6, witness at a concrete input: internal date 1634930855000 ms yields
the timestamp 1634930855000 / 1000 s. -/
theorem c6_timestamp_witness :
    (parse_api_message sampleRawMessage).isSome = true ∧
    (sampleRawMessage.internalDate.isSome = true ∧
     (parse_api_message sampleRawMessage).map Message.date =
       some (((sampleRawMessage.internalDate.getD 0 : Int) : Rat) / 1000) ∧
     (parse_api_message sampleRawMessage).map Message.id =
       some sampleRawMessage.id ∧
     (parse_api_message sampleRawMessage).map Message.threadId =
       some sampleRawMessage.threadId ∧
     (parse_api_message sampleRawMessage).map Message.snippet =
       some sampleRawMessage.snippet ∧
     (parse_api_message sampleRawMessage).map Message.payload =
       sampleRawMessage.payload.bind
         (fun pp => parse_message_part pp sampleRawMessage.id)) :=
  ⟨by decide, c6_timestamp_millis_to_seconds sampleRawMessage (by decide)⟩

/-- C7: the deferred attachment fetch checks both identifiers with Python
truthiness: a missing or empty owning message id or attachment id makes the
call return normally as a logged skip (never an exception), and the
attachment service is called only with the two identifiers present and
non-empty. -/
theorem c7_attachment_guard (descriptor : MessagePartDescriptor) :
    (strTruthy descriptor.message.id = false ∨
        strTruthy descriptor.message_part.body.attachmentId = false →
      query_attachment_of_descriptor descriptor = .skippedWithError) ∧
    (∀ a b, query_attachment_of_descriptor descriptor = .fetched a b →
      descriptor.message.id = some a ∧ a.isEmpty = false ∧
      descriptor.message_part.body.attachmentId = some b ∧ b.isEmpty = false) := by
  constructor
  · intro h
    unfold query_attachment_of_descriptor
    rcases h with h | h <;> simp [h]
  · intro a b h
    unfold query_attachment_of_descriptor at h
    by_cases h1 : strTruthy descriptor.message.id
    · by_cases h2 : strTruthy descriptor.message_part.body.attachmentId
      · simp only [h1, h2, Bool.not_true, Bool.or_self, Bool.false_eq_true,
          if_false, AttachmentFetch.fetched.injEq] at h
        obtain ⟨ha, hb⟩ := h
        cases hid : descriptor.message.id with
        | none => rw [hid] at h1; simp [strTruthy] at h1
        | some s =>
          cases hatt : descriptor.message_part.body.attachmentId with
          | none => rw [hatt] at h2; simp [strTruthy] at h2
          | some u =>
            rw [hid] at h1 ha
            rw [hatt] at h2 hb
            simp only [strTruthy, Bool.not_eq_true] at h1 h2
            simp only [Option.getD_some] at ha hb
            subst ha
            subst hb
            exact ⟨rfl, by simpa using h1, rfl, by simpa using h2⟩
      · simp [h2] at h
    · simp [h1] at h

/-- C7, witness at a concrete input: a descriptor with no attachment id is
skipped. -/
theorem c7_attachment_guard_witness :
    strTruthy sampleDescriptor.message_part.body.attachmentId = false ∧
    query_attachment_of_descriptor sampleDescriptor = .skippedWithError :=
  ⟨by decide,
   (c7_attachment_guard sampleDescriptor).1 (Or.inr (by decide))⟩

/-- C8: for every buffer state and handler, `handle_empty_bodies` invokes the
handler exactly once per buffered descriptor, in the order the descriptors
were recorded, and afterwards the empty-body buffer is empty while the rest
of the context is untouched. -/
theorem c8_drain_in_order {α : Type} (ctx : ApiConversionContext)
    (func : MessagePartDescriptor → α) :
    (ctx.handle_empty_bodies func).1 = ctx.empty_bodies.map func ∧
    (ctx.handle_empty_bodies func).2.empty_bodies = [] ∧
    (ctx.handle_empty_bodies func).2.decode_errors = ctx.decode_errors ∧
    (ctx.handle_empty_bodies func).2.progress = ctx.progress :=
  ⟨drainEmptyBodiesLoop_eq_map func ctx.empty_bodies, rfl, rfl, rfl⟩

/-- C10: thread assembly indexes the first parsed message unconditionally:
with at least one message the Thread takes its subject from the first
message, and a thread detail with zero messages makes the assembly (and hence
the whole detail step) fail — the orchestrator silently requires every
fetched thread to contain at least one message. -/
theorem c10_thread_assembly_precondition (thread_id : Option String) :
    (∀ messages : List Message, messages = [] →
      mk_thread_obj thread_id messages = none) ∧
    (∀ (m0 : Message) (rest : List Message),
      mk_thread_obj thread_id (m0 :: rest) =
        some ⟨thread_id, m0.subject, m0 :: rest⟩) ∧
    (∀ (env : SessionEnv) (ctx : ApiConversionContext),
      (env.getThread thread_id).messages = some [] →
      process_thread_step env thread_id ctx = none) := by
  refine ⟨?_, ?_, ?_⟩
  · intro messages h
    subst h
    rfl
  · intro m0 rest
    simp [mk_thread_obj]
  · intro env ctx h
    simp [process_thread_step, h, parse_api_message_list, mk_thread_obj]

/-- C10, witness at a concrete input: a thread detail with zero messages
fails the assembly and the detail step. -/
theorem c10_thread_assembly_witness :
    mk_thread_obj (some "t1") ([] : List Message) = none ∧
    process_thread_step sampleEnvNoMessages (some "t1")
      (ApiConversionContext.init none) = none :=
  ⟨(c10_thread_assembly_precondition (some "t1")).1 [] rfl,
   (c10_thread_assembly_precondition (some "t1")).2.2 sampleEnvNoMessages
     (ApiConversionContext.init none) rfl⟩

end GmailApi
